import Mathlib

/-!
Verification of the ESC/POS encoding engine (`web-print-escpos`).

The development shallowly embeds the source modules:
  * `utils` (parity digit, length prefix, display-width text metrics),
  * `image` (`PrintImage` with `toBitmap` / `toRaster` bit packing),
  * `printer` (`Printer.barcode`, `Printer.qrcode`, `Printer.image`,
    `Printer.raster`, `Printer.tableCustom`).

JavaScript strings are modelled as `List Char` (one entry per UTF-16 code
unit; all inputs of interest are BMP text).  The mutable output buffer is
modelled as the ordered list of write operations (`Chunk`): the command
table (`commands` module) is an external collaborator whose byte values are
not part of this repository snapshot, so named command constants appear as
symbolic `Chunk.cmd` entries while numeric writes (`writeUInt8`,
`writeUInt16LE`) and payload bytes are carried explicitly.
-/

namespace EscPos

/-- `utils.upperCase`: `string.toUpperCase()` (inputs of interest are ASCII). -/
def upperCase (s : List Char) : List Char :=
  s.map Char.toUpper

/-- `utils.charLength`: a code unit above `0x7f` and at most `0xffff` counts
as two display columns, otherwise one. -/
def charLength (ch : Char) : Nat :=
  if 0x7f < ch.toNat ∧ ch.toNat ≤ 0xffff then 2 else 1

/-- `utils.textLength`: reduce over the characters accumulating `charLength`. -/
def textLength (s : List Char) : Nat :=
  s.foldl (fun accLen ch => accLen + charLength ch) 0

/-- `utils.getParityBit`: reverse the code, loop a counter over the reversed
characters adding `digit * 3 ^ ((counter + 1) % 2)`, and return
`((10 - parity % 10) % 10).toString()`.  `parseInt(ch, 10)` on a decimal
digit character is `ch.toNat - 48`. -/
def getParityBit (str : List Char) : List Char :=
  let reversedCode := str.reverse
  let parity := (reversedCode.foldl
    (fun (st : Nat × Nat) ch =>
      (st.1 + (ch.toNat - 48) * 3 ^ ((st.2 + 1) % 2), st.2 + 1)) (0, 0)).1
  [Char.ofNat (48 + (10 - parity % 10) % 10)]

/-- Base-16 digit extraction, structurally recursive on a fuel argument so
that the kernel can evaluate it (`n` itself is enough fuel, as the value
shrinks by a factor of 16 each step). -/
def hexDigitsAux : Nat → Nat → List Nat
  | 0, n => [n % 16]
  | fuel + 1, n => if n < 16 then [n] else hexDigitsAux fuel (n / 16) ++ [n % 16]

/-- Big-endian base-16 digit values of `n`, as produced by
JavaScript `n.toString(16)`. -/
def hexDigits (n : Nat) : List Nat :=
  hexDigitsAux n n

/-- `Buffer.from(hex, 'hex')`: consume the hex digits two at a time; an
incomplete trailing digit is dropped. -/
def hexPairsToBytes : List Nat → List Nat
  | a :: b :: rest => (16 * a + b) :: hexPairsToBytes rest
  | _ => []

/-- `buffer.toString()` (UTF-8 decode) on a single byte: bytes below `0x80`
decode to themselves, an isolated byte at or above `0x80` is not valid UTF-8
and decodes to the replacement character `U+FFFD`.  (The buffers this model
decodes come from `codeLength` and are at most a few bytes; multi-byte UTF-8
sequences are outside the range used by the theorems below.) -/
def utf8ByteToChar (b : Nat) : Char :=
  if b < 0x80 then Char.ofNat b else Char.ofNat 0xFFFD

/-- `utils.codeLength`: `Buffer.from(str.length.toString(16), 'hex').toString()`. -/
def codeLength (str : List Char) : List Char :=
  (hexPairsToBytes (hexDigits str.length)).map utf8ByteToChar

/-- The checksum sum as the specification words it: over the reversed digit
string, each digit counts `3 ×` when its 1-indexed reversed position is odd
and `1 ×` when it is even. -/
def specWeightedSum (s : List Char) : Nat :=
  (s.reverse.enum.map
    (fun p => (if (p.1 + 1) % 2 = 1 then 3 else 1) * (p.2.toNat - 48))).sum

lemma parityFold (l : List Char) (a c : Nat) :
    (l.foldl
      (fun (st : Nat × Nat) ch =>
        (st.1 + (ch.toNat - 48) * 3 ^ ((st.2 + 1) % 2), st.2 + 1)) (a, c)).1
      = a + ((List.enumFrom c l).map
          (fun p => (p.2.toNat - 48) * 3 ^ ((p.1 + 1) % 2))).sum := by
  induction l generalizing a c with
  | nil => simp
  | cons ch t ih =>
      simp only [List.foldl_cons, List.enumFrom_cons, List.map_cons, List.sum_cons]
      rw [ih]
      ring

lemma getParityBit_eq_spec (s : List Char) :
    getParityBit s
      = [Char.ofNat (48 + (10 - specWeightedSum s % 10) % 10)] := by
  show [Char.ofNat (48 + (10 - (s.reverse.foldl
      (fun (st : Nat × Nat) ch =>
        (st.1 + (ch.toNat - 48) * 3 ^ ((st.2 + 1) % 2), st.2 + 1)) (0, 0)).1 % 10) % 10)] = _
  rw [parityFold]
  unfold specWeightedSum
  rw [List.enum]
  have hmap : (List.enumFrom 0 s.reverse).map
        (fun p => (p.2.toNat - 48) * 3 ^ ((p.1 + 1) % 2))
      = (List.enumFrom 0 s.reverse).map
        (fun p => (if (p.1 + 1) % 2 = 1 then 3 else 1) * (p.2.toNat - 48)) := by
    apply List.map_congr_left
    intro p _
    rcases Nat.mod_two_eq_zero_or_one (p.1 + 1) with h | h <;> simp [h, Nat.mul_comm]
  rw [Nat.zero_add, hmap]

/-- `PrintImage`: the ink mask.  The constructor derives `data` from an RGBA
pixel grid (`a != 0 && r > 200 && g > 200 && b > 200` per pixel); the claims
quantify over arbitrary masks, so the mask itself is the model state.
`data` is the flat row-major mask: the source reads `this.data[l * width + x]`. -/
structure PrintImage where
  width : Nat
  height : Nat
  data : Nat → Bool

/-- `Math.ceil(a / b)` for natural `a`, positive `b`. -/
def ceilDiv (a b : Nat) : Nat := (a + b - 1) / b

/-- The guarded mask read in `toBitmap`:
`l < this.size.height` and `this.data[l * width + x]`. -/
def inkAt (img : PrintImage) (l x : Nat) : Bool :=
  decide (l < img.height) && img.data (l * img.width + x)

/-- One byte of a bitmap line.  In the source the inner loop runs
`b = 0 .. density-1` and accumulates `0x80 >> (b & 7)` into
`ld[x * c + (b >> 3)]`; the byte at offset `x * c + k` therefore receives
exactly the sub-bits `b = 8k + t`, `t < 8`, in increasing order. -/
def bitmapByte (img : PrintImage) (density y x k : Nat) : Nat :=
  (List.range 8).foldl
    (fun acc t =>
      acc + (if inkAt img (y * density + (8 * k + t)) x then 128 >>> t else 0)) 0

/-- One line-block of `toBitmap`: bytes `ld[0 .. width*c - 1]` filled at
indices `i = x * c + (b >> 3)` as `x` runs over the columns. -/
def bitmapLine (img : PrintImage) (density y : Nat) : List Nat :=
  (List.range img.width).flatMap
    (fun x => (List.range (density / 8)).map (fun k => bitmapByte img density y x k))

/-- `PrintImage.toBitmap`: `ceil(height / density)` line-blocks. -/
def toBitmap (img : PrintImage) (density : Nat) : List (List Nat) :=
  (List.range (ceilDiv img.height density)).map (fun y => bitmapLine img density y)

/-- The guarded mask read in `toRaster`:
`c < width` and `this.data[y * width + c]` (the source computes the same
column index twice, as `i` and as `c`). -/
def rasterOn (img : PrintImage) (y c : Nat) : Bool :=
  decide (c < img.width) && img.data (y * img.width + c)

/-- One byte of the raster projection: `result[y * n + x]` accumulates
`0x80 >> (b & 7)` for the set columns `x * 8 + b`, `b < 8`. -/
def rasterByte (img : PrintImage) (y x : Nat) : Nat :=
  (List.range 8).foldl
    (fun acc b =>
      acc + (if rasterOn img y (x * 8 + b) then 128 >>> b else 0)) 0

/-- Return value of `PrintImage.toRaster`: data plus byte-width and rows. -/
structure Raster where
  data : List Nat
  width : Nat
  height : Nat
deriving DecidableEq

/-- `PrintImage.toRaster`: `height * ceil(width / 8)` bytes, row-major. -/
def toRaster (img : PrintImage) : Raster :=
  let n := ceilDiv img.width 8
  { data := (List.range img.height).flatMap
      (fun y => (List.range n).map (fun x => rasterByte img y x))
    width := n
    height := img.height }

/-- Extracting the bit masked by `0x80 >> pos` from a byte, as the claims
word the decoding step. -/
def bitAt (byte pos : Nat) : Bool :=
  byte &&& (128 >>> pos) != 0

/-- Value of the low `k` bits given by `c`, least significant first. -/
def lsbVal (c : Nat → Bool) : Nat → Nat
  | 0 => 0
  | k + 1 => lsbVal c k + (c k).toNat * 2 ^ k

lemma lsbVal_lt (c : Nat → Bool) (k : Nat) : lsbVal c k < 2 ^ k := by
  induction k with
  | zero => simp [lsbVal]
  | succ k ih =>
      have h1 : (c k).toNat * 2 ^ k ≤ 1 * 2 ^ k :=
        Nat.mul_le_mul_right _ (Bool.toNat_le _)
      have h2 : (2 : Nat) ^ (k + 1) = 2 ^ k + 2 ^ k := by ring
      simp only [lsbVal]
      omega

lemma testBit_lsbVal (c : Nat → Bool) (k j : Nat) (h : j < k) :
    (lsbVal c k).testBit j = c j := by
  induction k generalizing j with
  | zero => omega
  | succ k ih =>
      have hb : lsbVal c k < 2 ^ k := lsbVal_lt c k
      have hval : lsbVal c (k + 1) = 2 ^ k * (c k).toNat + lsbVal c k := by
        simp only [lsbVal]; ring
      rw [hval, Nat.testBit_mul_pow_two_add _ hb]
      by_cases hj : j < k
      · simp [hj, ih _ hj]
      · have hjk : j = k := by omega
        subst hjk
        simp only [Nat.lt_irrefl, if_false, Nat.sub_self]
        cases c j <;> simp

lemma byteFold_eq_lsbVal (c : Nat → Bool) :
    (List.range 8).foldl (fun acc t => acc + (if c t then 128 >>> t else 0)) 0
      = lsbVal (fun j => c (7 - j)) 8 := by
  have hif : ∀ (b : Bool) (v : Nat), (if b then v else 0) = b.toNat * v := by
    intro b v; cases b <;> simp
  simp only [List.range_succ, List.range_zero, List.nil_append,
    List.foldl_append, List.foldl_cons, List.foldl_nil, lsbVal, hif,
    Nat.shiftRight_eq_div_pow]
  norm_num
  omega

lemma testBit_byteFold (c : Nat → Bool) (b : Nat) (hb : b < 8) :
    ((List.range 8).foldl (fun acc t => acc + (if c t then 128 >>> t else 0)) 0).testBit (7 - b)
      = c b := by
  rw [byteFold_eq_lsbVal, testBit_lsbVal _ _ _ (by omega)]
  congr 1
  omega

lemma bitAt_eq_testBit (byte pos : Nat) (h : pos < 8) :
    bitAt byte pos = byte.testBit (7 - pos) := by
  have hshift : (128 : Nat) >>> pos = 2 ^ (7 - pos) := by
    interval_cases pos <;> rfl
  rw [bitAt, hshift, Nat.and_two_pow]
  cases hbit : byte.testBit (7 - pos) <;> simp [hbit, Nat.pow_eq_zero]

lemma blocks_length {α : Type} (w c : Nat) (f : Nat → Nat → α) :
    ((List.range w).flatMap (fun i => (List.range c).map (f i))).length = w * c := by
  simp [List.length_flatMap, Function.comp_def, List.map_const', List.sum_replicate,
    smul_eq_mul, Nat.mul_comm]

lemma blocks_getD {α : Type} {w c : Nat} (f : Nat → Nat → α) (d : α)
    {x k : Nat} (hx : x < w) (hk : k < c) :
    ((List.range w).flatMap (fun i => (List.range c).map (f i))).getD (x * c + k) d
      = f x k := by
  have hw : w = x + (w - x) := by omega
  rw [hw, List.range_add, List.flatMap_append]
  have hlen : ((List.range x).flatMap (fun i => (List.range c).map (f i))).length
      = x * c := blocks_length x c f
  rw [List.getD_eq_getElem?_getD, List.getElem?_append_right (by omega)]
  rw [hlen, Nat.add_sub_cancel_left]
  have hxm : w - x = (w - x - 1) + 1 := by omega
  rw [hxm, List.range_succ_eq_map, List.map_cons, List.flatMap_cons]
  rw [List.getElem?_append_left (by simp [hk]), List.getElem?_map,
    List.getElem?_range hk]
  simp

lemma bitmapByte_decode (img : PrintImage) (density y x k b : Nat) (hb : b < 8) :
    bitAt (bitmapByte img density y x k) b
      = inkAt img (y * density + (8 * k + b)) x := by
  rw [bitAt_eq_testBit _ _ hb, bitmapByte, testBit_byteFold _ _ hb]

lemma rasterByte_decode (img : PrintImage) (y x b : Nat) (hb : b < 8) :
    bitAt (rasterByte img y x) b = rasterOn img y (x * 8 + b) := by
  rw [bitAt_eq_testBit _ _ hb, rasterByte, testBit_byteFold _ _ hb]

lemma toBitmap_getD (img : PrintImage) (density y : Nat)
    (hy : y < ceilDiv img.height density) :
    (toBitmap img density).getD y [] = bitmapLine img density y := by
  rw [toBitmap, List.getD_eq_getElem?_getD, List.getElem?_map, List.getElem?_range hy]
  simp

/-- C6: for an ink mask of positive width and height and density in
`{8, 16, 24}`, decoding `toBitmap` output at block `y`, byte offset
`x * (density/8) + b/8`, bit `0x80 >> (b % 8)` yields `mask[y*density+b][x]`
when the source row is below the height and `false` (zero padding) otherwise;
and decoding `toRaster` output at byte `y2 * ceil(width/8) + x2`, bit
`0x80 >> b2` yields `mask[y2][x2*8+b2]` when the column is inside the image
and `false` otherwise — so both bit-packed projections reconstruct the mask
exactly. -/
theorem toBitmap_toRaster_roundtrip
    (img : PrintImage) (density y x b y2 x2 b2 : Nat)
    (_hw : 0 < img.width) (_hh : 0 < img.height)
    (hd : density = 8 ∨ density = 16 ∨ density = 24)
    (hy : y < ceilDiv img.height density) (hx : x < img.width) (hb : b < density)
    (hy2 : y2 < img.height) (hx2 : x2 < ceilDiv img.width 8) (hb2 : b2 < 8) :
    (bitAt (((toBitmap img density).getD y []).getD (x * (density / 8) + b / 8) 0) (b % 8)
        = if y * density + b < img.height
            then img.data ((y * density + b) * img.width + x) else false)
      ∧ (bitAt ((toRaster img).data.getD (y2 * ceilDiv img.width 8 + x2) 0) b2
        = if x2 * 8 + b2 < img.width
            then img.data (y2 * img.width + (x2 * 8 + b2)) else false) := by
  constructor
  · rw [toBitmap_getD img density y hy, bitmapLine,
      blocks_getD _ _ hx (by rcases hd with h | h | h <;> subst h <;> omega),
      bitmapByte_decode _ _ _ _ _ _ (Nat.mod_lt _ (by omega))]
    have h8 : 8 * (b / 8) + b % 8 = b := by omega
    rw [inkAt, h8]
    by_cases hlt : y * density + b < img.height <;> simp [hlt]
  · have hdata : (toRaster img).data
        = (List.range img.height).flatMap
            (fun y => (List.range (ceilDiv img.width 8)).map
              (fun x => rasterByte img y x)) := rfl
    rw [hdata, blocks_getD _ _ hy2 hx2, rasterByte_decode _ _ _ _ hb2, rasterOn]
    by_cases hlt : x2 * 8 + b2 < img.width <;> simp [hlt]

/-- A concrete 3 x 2 ink mask used by witnesses. -/
def testMask : PrintImage :=
  { width := 3, height := 2, data := fun i => decide (i % 2 = 0) }

/-- Witness for `toBitmap_toRaster_roundtrip` at the concrete 3 x 2 mask
with density 16. -/
theorem toBitmap_toRaster_roundtrip_witness :
    (bitAt (((toBitmap testMask 16).getD 0 []).getD (1 * (16 / 8) + 9 / 8) 0) (9 % 8)
        = if 0 * 16 + 9 < testMask.height
            then testMask.data ((0 * 16 + 9) * testMask.width + 1) else false)
      ∧ (bitAt ((toRaster testMask).data.getD (1 * ceilDiv testMask.width 8 + 0) 0) 2
        = if 0 * 8 + 2 < testMask.width
            then testMask.data (1 * testMask.width + (0 * 8 + 2)) else false) :=
  toBitmap_toRaster_roundtrip testMask 16 0 1 9 1 0 2 (by decide) (by decide)
    (by decide) (by decide) (by decide) (by decide) (by decide) (by decide) (by decide)

/-- One rendered token of a table line: a text character, or a symbolic
style / custom-size / terminator escape whose bytes come from the external
command table (`_getStyle` resolves a mnemonic to command-table constants;
the mnemonic is carried here in upper case). -/
inductive Tok where
  | ch : Char → Tok
  | esc : String → Tok
  | size : Nat → Nat → Tok
deriving DecidableEq

/-- A write operation on the output buffer.  Named command constants come
from the external `commands` module (its byte values are not in this
repository snapshot), so they stay symbolic; `cmdN` is a parameterized
command builder such as `BARCODE_HEIGHT(n)`; `u8` / `u16le` are
`writeUInt8` / `writeUInt16LE`; `str` is a postponed text write; `bytes`
is a raw byte-array write; `line` is a codec-encoded table line. -/
inductive Chunk where
  | cmd : String → Chunk
  | cmdN : String → Nat → Chunk
  | u8 : Nat → Chunk
  | u16le : Nat → Chunk
  | str : List Char → Chunk
  | bytes : List Nat → Chunk
  | line : List Tok → Chunk
deriving DecidableEq

/-- An exception thrown by a printer operation. -/
inductive Err where
  | typeError : String → Err
  | jsError : String → Err
deriving DecidableEq

/-- The `image` / `raster` argument: a `PrintImage` or anything else
(the `instanceof` check fails on the latter). -/
inductive ImgArg where
  | img : PrintImage → ImgArg
  | notImage : ImgArg

/-- JS `x || d` on an optional string option (an empty string is falsy). -/
def jsOrStr (v : Option (List Char)) (d : List Char) : List Char :=
  match v with
  | some s => if s = [] then d else s
  | none => d

/-- Line 458 of the printer module:
`options.includeParity = options.includeParity || true`. -/
def resolveIncludeParity (v : Option Bool) : Bool :=
  match v with
  | some b => b || true
  | none => true

/-- The `barcode` options object after legacy-argument dispatch
(the legacy tuple form fills `includeParity` with `true`). -/
structure BarcodeOpts where
  width : Option Nat := none
  height : Option Nat := none
  position : Option (List Char) := none
  font : Option (List Char) := none
  includeParity : Option Bool := none

namespace Printer

/-- `Printer.barcode`.  `model` is the session `_model` field; `widthKeys`
stands for membership in the external width-class table
(`utils.isKey(options.width, BARCODE_FORMAT.BARCODE_WIDTH)`).  The result is
the pair (chunks appended to the buffer, exception thrown); the source
throws before its first buffer write, which the definition mirrors by
keeping every write that would precede a throw. -/
def barcode (model : Option String) (widthKeys : Option Nat → Bool)
    (code : List Char) (type : Option (List Char)) (o : BarcodeOpts) :
    List Chunk × Option Err :=
  let font := jsOrStr o.font ['a']
  let position := jsOrStr o.position ['b', 'l', 'w']
  let includeParity := resolveIncludeParity o.includeParity
  let convertCode := code
  match type with
  | none => ([], some (.typeError "barcode type is required"))
  | some t =>
    if t = "EAN13".toList ∧ convertCode.length ≠ 12 then
      ([], some (.jsError "EAN13 Barcode type requires code length 12"))
    else if t = "EAN8".toList ∧ convertCode.length ≠ 7 then
      ([], some (.jsError "EAN8 Barcode type requires code length 7"))
    else
      let modeOn := if model = some "qsprinter"
        then [Chunk.cmd "QSPRINTER_BARCODE_MODE_ON"] else []
      let widthC := if model = some "qsprinter" then []
        else if widthKeys o.width then [Chunk.cmdN "BARCODE_WIDTH" (o.width.getD 0)]
        else [Chunk.cmd "BARCODE_WIDTH_DEFAULT"]
      let heightDefault := if model = some "qsprinter"
        then [Chunk.cmd "QSPRINTER_BARCODE_HEIGHT_DEFAULT"]
        else [Chunk.cmd "BARCODE_HEIGHT_DEFAULT"]
      let heightC := match o.height with
        | some h => if 1 ≤ h ∧ h ≤ 255 then [Chunk.cmdN "BARCODE_HEIGHT" h]
            else heightDefault
        | none => heightDefault
      let fontC := if model = some "qsprinter" then []
        else [Chunk.cmd ("BARCODE_FONT_" ++ String.mk (upperCase font))]
      let posC := [Chunk.cmd ("BARCODE_TXT_" ++ String.mk (upperCase position))]
      let normalizedType :=
        let u := upperCase t
        if u = "UPC-A".toList then "UPC_A".toList
        else if u = "UPC-E".toList then "UPC_E".toList
        else u
      let symC := [Chunk.cmd ("BARCODE_" ++ String.mk normalizedType)]
      let parityBit :=
        if includeParity then
          if t = "EAN13".toList ∨ t = "EAN8".toList then getParityBit convertCode
          else []
        else []
      let lengthPrefix :=
        if t = "CODE128".toList ∨ t = "CODE93".toList then codeLength convertCode
        else []
      let payload := [Chunk.str (lengthPrefix ++ convertCode
        ++ (if includeParity then parityBit else []) ++ ['\x00'])]
      let modeOff := if model = some "qsprinter"
        then [Chunk.cmd "QSPRINTER_BARCODE_MODE_OFF"] else []
      (modeOn ++ widthC ++ heightC ++ fontC ++ posC ++ symC ++ payload ++ modeOff,
        none)

end Printer

/-- Modelled from the spec: the numeric bounds, defaults and length offset of
the qsprinter 2D-code sub-protocol live in the external `commands` module
(`MODEL.QSPRINTER.CODE2D_FORMAT`), which is absent from this snapshot; only
the clamp structure matters to the claims, so the numbers are parameters. -/
structure QSConsts where
  pixelMin : Nat
  pixelMax : Nat
  pixelDefault : Nat
  versionMin : Nat
  versionMax : Nat
  versionDefault : Nat
  lenOffset : Nat

/-- Standard UTF-8 encoding of one scalar value
(`iconv.encode(content, 'utf8')` is an external collaborator). -/
def utf8EncodeChar (c : Char) : List Nat :=
  let n := c.toNat
  if n < 0x80 then [n]
  else if n < 0x800 then [0xC0 + n / 64, 0x80 + n % 64]
  else if n < 0x10000 then [0xE0 + n / 4096, 0x80 + n / 64 % 64, 0x80 + n % 64]
  else [0xF0 + n / 262144, 0x80 + n / 4096 % 64, 0x80 + n / 64 % 64, 0x80 + n % 64]

/-- UTF-8 encoding of a text. -/
def utf8Encode (s : List Char) : List Nat :=
  s.flatMap utf8EncodeChar

namespace Printer

/-- `Printer.qrcode`.  The generic branch emits the direct command; the
qsprinter branch checks `dataRaw.length < 1 && dataRaw.length > 2710`
(the conjunction as written in the source) and then emits the five-step
save/print-buffer sequence.  `version || DEFAULT` and `size || DEFAULT`
treat `0` and `undefined` as falsy, matching `!size` / `!version`. -/
def qrcode (model : Option String) (qs : QSConsts) (content : List Char)
    (version : Option Nat) (level : Option (List Char)) (size : Option Nat) :
    List Chunk × Option Err :=
  if model ≠ some "qsprinter" then
    ([Chunk.cmd "TYPE_QR", Chunk.cmd "CODE2D",
      Chunk.u8 (match version with | none => 3 | some 0 => 3 | some v => v),
      Chunk.cmd ("QR_LEVEL_" ++ String.mk (upperCase (jsOrStr level ['L']))),
      Chunk.u8 (match size with | none => 6 | some 0 => 6 | some v => v),
      Chunk.u16le content.length, Chunk.str content], none)
  else
    let dataRaw := utf8Encode content
    if dataRaw.length < 1 ∧ dataRaw.length > 2710 then
      ([], some (.jsError "Invalid code length in byte. Must be between 1 and 2710"))
    else
      let size2 := match size with
        | none => qs.pixelDefault
        | some 0 => qs.pixelDefault
        | some v => if v < qs.pixelMin then qs.pixelMin
            else if v > qs.pixelMax then qs.pixelMax else v
      let version2 := match version with
        | none => qs.versionDefault
        | some 0 => qs.versionDefault
        | some v => if v < qs.versionMin then qs.versionMin
            else if v > qs.versionMax then qs.versionMax else v
      ([Chunk.cmd "QS_PIXEL_SIZE", Chunk.u8 size2,
        Chunk.cmd "QS_VERSION", Chunk.u8 version2,
        Chunk.cmd "QS_LEVEL",
        Chunk.cmd ("QS_LEVEL_" ++ String.mk (upperCase (jsOrStr level ['L']))),
        Chunk.cmd "QS_SAVEBUF_P1", Chunk.u16le (dataRaw.length + qs.lenOffset),
        Chunk.cmd "QS_SAVEBUF_P2", Chunk.bytes dataRaw,
        Chunk.cmd "QS_PRINTBUF_P1", Chunk.u16le (dataRaw.length + qs.lenOffset),
        Chunk.cmd "QS_PRINTBUF_P2"], none)

/-- `Printer.lineSpace`: default restore when called with no argument,
otherwise set to `n`. -/
def lineSpace (n : Option Nat) : List Chunk :=
  match n with
  | none => [Chunk.cmd "LS_DEFAULT"]
  | some v => [Chunk.cmd "LS_SET", Chunk.u8 v]

/-- `Printer.image`: reject a non-image, pick `n = 1` for densities D8/S8 and
`3` otherwise, then write line spacing zero, per bitmap line the header, the
16-bit little-endian `line.length / n`, the line bytes and an EOL, and
finally the default line spacing.  (The post-write delay is timing, not
bytes.) -/
def image (arg : ImgArg) (density : List Char) : List Chunk × Option Err :=
  match arg with
  | .notImage => ([], some (.typeError "Only escpos.getImage supported"))
  | .img im =>
    let n := if upperCase density = "D8".toList ∨ upperCase density = "S8".toList
      then 1 else 3
    let header := "BITMAP_" ++ String.mk (upperCase density)
    let bitmap := toBitmap im (n * 8)
    let chunks := bitmap.foldl
      (fun acc line => acc ++ [Chunk.cmd header, Chunk.u16le (line.length / n),
        Chunk.bytes line, Chunk.cmd "EOL"])
      (lineSpace (some 0))
    (chunks ++ lineSpace none, none)

/-- `Printer.raster`: reject a non-image, fold the double-size mode aliases
into `DWDH`, then write the mode header, 16-bit little-endian byte-width and
height, and the raster bytes. -/
def raster (arg : ImgArg) (mode : List Char) : List Chunk × Option Err :=
  match arg with
  | .notImage => ([], some (.typeError "Only escpos.getImage supported"))
  | .img im =>
    let m := upperCase mode
    let m2 := if m = "DHDW".toList ∨ m = "DWH".toList ∨ m = "DHW".toList
      then "DWDH".toList else m
    let r := toRaster im
    ([Chunk.cmd ("GSV0_" ++ String.mk m2), Chunk.u16le r.width,
      Chunk.u16le r.height, Chunk.bytes r.data], none)

end Printer

lemma resolveIncludeParity_true (v : Option Bool) :
    resolveIncludeParity v = true := by
  cases v with
  | none => rfl
  | some b => cases b <;> rfl

lemma hexDigitsAux_small (fuel n : Nat) (h : n < 16) :
    hexDigitsAux fuel n = [n] := by
  cases fuel with
  | zero => simp [hexDigitsAux, Nat.mod_eq_of_lt h]
  | succ f => simp [hexDigitsAux, h]

lemma hexDigits_small (n : Nat) (h : n < 16) : hexDigits n = [n] :=
  hexDigitsAux_small n n h

lemma hexDigits_mid (n : Nat) (h1 : 16 ≤ n) (h2 : n < 256) :
    hexDigits n = [n / 16, n % 16] := by
  obtain ⟨m, rfl⟩ : ∃ m, n = m + 1 := ⟨n - 1, by omega⟩
  show hexDigitsAux (m + 1) (m + 1) = _
  rw [hexDigitsAux, if_neg (by omega),
    hexDigitsAux_small m ((m + 1) / 16) (by omega)]
  rfl

/-- For payload lengths up to 127 the length prefix is empty below 16 (the
one-digit hex string holds no full byte pair) and the single byte equal to
the length from 16 on. -/
lemma codeLength_small (s : List Char) (hs : s.length ≤ 127) :
    codeLength s = if s.length < 16 then [] else [Char.ofNat s.length] := by
  by_cases h : s.length < 16
  · simp [codeLength, hexDigits_small _ h, hexPairsToBytes, h]
  · have h2 : s.length < 256 := by omega
    have h16 : 16 * (s.length / 16) + s.length % 16 = s.length := by omega
    simp only [codeLength, hexDigits_mid _ (by omega) h2, hexPairsToBytes,
      List.map_cons, List.map_nil, h16, if_neg h]
    rw [utf8ByteToChar, if_pos (by omega)]

lemma foldl_append_chunks {α β : Type} (l : List α) (g : α → List β)
    (init : List β) :
    l.foldl (fun acc x => acc ++ g x) init = init ++ l.flatMap g := by
  induction l generalizing init with
  | nil => simp
  | cons a t ih => simp [ih, List.append_assoc]

/-- C2: with type EAN13, `barcode` raises the length error exactly when the
payload length differs from 12 (so for 11- and 13-digit payloads) and
succeeds on exactly 12 digits; with type EAN8 it raises exactly when the
length differs from 7 and succeeds on exactly 7 digits. -/
theorem barcode_fixed_length_check
    (model : Option String) (widthKeys : Option Nat → Bool)
    (code : List Char) (o : BarcodeOpts) :
    ((Printer.barcode model widthKeys code (some "EAN13".toList) o).2
        = if code.length = 12 then none
          else some (.jsError "EAN13 Barcode type requires code length 12"))
      ∧ ((Printer.barcode model widthKeys code (some "EAN8".toList) o).2
        = if code.length = 7 then none
          else some (.jsError "EAN8 Barcode type requires code length 7")) := by
  have h813 : "EAN8".toList ≠ "EAN13".toList := by decide
  constructor
  · by_cases h : code.length = 12 <;> simp [Printer.barcode, h]
  · by_cases h : code.length = 7 <;> simp [Printer.barcode, h, h813]

/-- C4 is false as stated: the CODE128 payload "AB" has length 2, whose
one-digit hex string parses to an empty buffer, so no length prefix byte is
emitted at all — the payload write is the bare code plus NUL. -/
theorem codeLength_no_prefix_counterexample :
    codeLength ['A', 'B'] = []
      ∧ Chunk.str (['A', 'B'] ++ ['\x00'])
          ∈ (Printer.barcode none (fun _ => false) ['A', 'B']
              (some "CODE128".toList) {}).1 := by
  constructor
  · decide
  · decide

/-- C4 (amended): only CODE128 and CODE93 receive a length prefix, namely
the hex-pair decoding of the payload length: empty for lengths below 16
(the one-digit hex string holds no byte pair) and the single byte equal to
the length for lengths 16 to 127; no other symbology receives a prefix.
The EAN hypotheses keep the call on its success path. -/
theorem barcode_length_prefix
    (s t : List Char) (model : Option String) (widthKeys : Option Nat → Bool)
    (o : BarcodeOpts) (hs : s.length ≤ 127)
    (h13 : t = "EAN13".toList → s.length = 12)
    (h8 : t = "EAN8".toList → s.length = 7) :
    codeLength s = (if s.length < 16 then [] else [Char.ofNat s.length])
      ∧ Chunk.str ((if t = "CODE128".toList ∨ t = "CODE93".toList
            then codeLength s else [])
          ++ s
          ++ (if t = "EAN13".toList ∨ t = "EAN8".toList then getParityBit s else [])
          ++ ['\x00'])
        ∈ (Printer.barcode model widthKeys s (some t) o).1 := by
  refine ⟨codeLength_small s hs, ?_⟩
  have hne13 : ¬ (t = "EAN13".toList ∧ s.length ≠ 12) := fun h => h.2 (h13 h.1)
  have hne8 : ¬ (t = "EAN8".toList ∧ s.length ≠ 7) := fun h => h.2 (h8 h.1)
  simp only [Printer.barcode, if_neg hne13, if_neg hne8]
  simp [resolveIncludeParity_true]

/-- Witness for `barcode_length_prefix` at a 20-character CODE128 payload. -/
theorem barcode_length_prefix_witness :
    codeLength (List.replicate 20 'a')
        = (if (List.replicate 20 'a').length < 16 then []
            else [Char.ofNat (List.replicate 20 'a').length])
      ∧ Chunk.str ((if ("CODE128".toList : List Char) = "CODE128".toList
            ∨ ("CODE128".toList : List Char) = "CODE93".toList
            then codeLength (List.replicate 20 'a') else [])
          ++ List.replicate 20 'a'
          ++ (if ("CODE128".toList : List Char) = "EAN13".toList
              ∨ ("CODE128".toList : List Char) = "EAN8".toList
              then getParityBit (List.replicate 20 'a') else [])
          ++ ['\x00'])
        ∈ (Printer.barcode none (fun _ => false) (List.replicate 20 'a')
            (some "CODE128".toList) {}).1 :=
  barcode_length_prefix (List.replicate 20 'a') "CODE128".toList none
    (fun _ => false) {} (by decide) (by decide) (by decide)

/-- C9: the option defaulting `options.includeParity || true` resolves to
true for every caller value, an explicit `false` included; consequently
EAN13/EAN8 emissions always carry the computed checksum digit between the
payload and the NUL terminator, and no call can suppress it. -/
theorem barcode_parity_always_included
    (v : Option Bool) (model : Option String) (widthKeys : Option Nat → Bool)
    (c13 c8 : List Char) (o : BarcodeOpts)
    (h12 : c13.length = 12) (h7 : c8.length = 7) :
    resolveIncludeParity v = true
      ∧ Chunk.str (c13 ++ getParityBit c13 ++ ['\x00'])
          ∈ (Printer.barcode model widthKeys c13 (some "EAN13".toList) o).1
      ∧ Chunk.str (c8 ++ getParityBit c8 ++ ['\x00'])
          ∈ (Printer.barcode model widthKeys c8 (some "EAN8".toList) o).1 := by
  have hC : ("EAN8".toList : List Char) ≠ "EAN13".toList := by decide
  refine ⟨resolveIncludeParity_true v, ?_, ?_⟩
  · simp [Printer.barcode, h12, resolveIncludeParity_true]
  · simp [Printer.barcode, h7, hC, resolveIncludeParity_true]

/-- Witness for `barcode_parity_always_included` on concrete 12- and 7-digit
payloads. -/
theorem barcode_parity_always_included_witness :
    resolveIncludeParity (some false) = true
      ∧ Chunk.str ("036000291452".toList ++ getParityBit "036000291452".toList
            ++ ['\x00'])
          ∈ (Printer.barcode none (fun _ => false) "036000291452".toList
              (some "EAN13".toList) {}).1
      ∧ Chunk.str ("9638507".toList ++ getParityBit "9638507".toList ++ ['\x00'])
          ∈ (Printer.barcode none (fun _ => false) "9638507".toList
              (some "EAN8".toList) {}).1 :=
  barcode_parity_always_included (some false) none (fun _ => false)
    "036000291452".toList "9638507".toList {} (by decide) (by decide)

/-- C5: every operation among barcode, qrcode, image and raster either
throws no error or appends nothing to the output stream: each validation or
type error in the source precedes the first buffer write of its call, so a
failing call leaves the stream (and the session fields, which these
operations never assign) exactly as they were. -/
theorem errors_leave_stream_untouched
    (model : Option String) (widthKeys : Option Nat → Bool) (code : List Char)
    (type : Option (List Char)) (o : BarcodeOpts) (qs : QSConsts)
    (content : List Char) (version : Option Nat) (level : Option (List Char))
    (size : Option Nat) (arg1 arg2 : ImgArg) (density mode : List Char) :
    ((Printer.barcode model widthKeys code type o).2 = none
        ∨ (Printer.barcode model widthKeys code type o).1 = [])
      ∧ ((Printer.qrcode model qs content version level size).2 = none
        ∨ (Printer.qrcode model qs content version level size).1 = [])
      ∧ ((Printer.image arg1 density).2 = none
        ∨ (Printer.image arg1 density).1 = [])
      ∧ ((Printer.raster arg2 mode).2 = none
        ∨ (Printer.raster arg2 mode).1 = []) := by
  refine ⟨?_, ?_, ?_, ?_⟩
  · cases type with
    | none => exact Or.inr rfl
    | some t =>
        simp only [Printer.barcode]
        split_ifs <;> simp
  · simp only [Printer.qrcode]
    split_ifs <;> simp
  · cases arg1 with
    | notImage => exact Or.inr rfl
    | img im => exact Or.inl rfl
  · cases arg2 with
    | notImage => exact Or.inr rfl
    | img im => exact Or.inl rfl

/-- A concrete instance of the qsprinter parameter table for witnesses and
counterexamples (the claims do not depend on the numeric values). -/
def testQS : QSConsts :=
  { pixelMin := 1, pixelMax := 24, pixelDefault := 12,
    versionMin := 1, versionMax := 16, versionDefault := 3, lenOffset := 10 }

/-- C1 is false as stated: on the qsprinter model a content of UTF-8 byte
length 0 does not raise — the source guard is the conjunction
`dataRaw.length < 1 && dataRaw.length > 2710`, which never holds — and the
call emits the full command sequence instead of leaving the stream alone. -/
theorem qrcode_qs_zero_length_no_error :
    (Printer.qrcode (some "qsprinter") testQS [] none none none).2 = none
      ∧ (Printer.qrcode (some "qsprinter") testQS [] none none none).1 ≠ [] := by
  constructor
  · decide
  · decide

/-- C1 (amended): the qsprinter length guard conjoins `< 1` with `> 2710`
and therefore never fires: `qrcode` on a qsprinter session raises no error
and emits the full five-step save/print-buffer sequence (13 buffer writes)
for every content — byte lengths 0 and above 2710 included. -/
theorem qrcode_qs_never_raises (qs : QSConsts) (content : List Char)
    (version : Option Nat) (level : Option (List Char)) (size : Option Nat) :
    (Printer.qrcode (some "qsprinter") qs content version level size).2 = none
      ∧ (Printer.qrcode (some "qsprinter") qs content version level size).1.length
          = 13 := by
  have hguard : ¬ ((utf8Encode content).length < 1
      ∧ (utf8Encode content).length > 2710) := by omega
  have hmodel : ¬ ((some "qsprinter" : Option String) ≠ some "qsprinter") := by
    simp
  simp only [Printer.qrcode, if_neg hmodel, if_neg hguard]
  simp

lemma flatMap_congr {α β : Type} {l : List α} {f g : α → List β}
    (h : ∀ x ∈ l, f x = g x) : l.flatMap f = l.flatMap g := by
  induction l with
  | nil => rfl
  | cons a t ih => simp_all

/-- The image emission C7 describes, assembled from the claim text: the
set-line-spacing-zero command, then per bitmap line the density header, that
line's byte length as a little-endian 16-bit value and the line bytes, and
after all lines the restore-default command — no per-line terminator and an
undivided byte length. -/
def claimedImageSeq (im : PrintImage) (density : List Char) : List Chunk :=
  let n := if upperCase density = "D8".toList ∨ upperCase density = "S8".toList
    then 1 else 3
  let header := "BITMAP_" ++ String.mk (upperCase density)
  Printer.lineSpace (some 0)
    ++ (toBitmap im (n * 8)).flatMap
      (fun line => [Chunk.cmd header, Chunk.u16le line.length, Chunk.bytes line])
    ++ Printer.lineSpace none

/-- C7 is false as stated, at density d24 on the concrete 3 x 2 mask: the
source writes `line.length / 3` (the dot width 3, not the byte length 9) and
a line terminator after each line, so the emitted stream differs from the
claimed one. -/
theorem image_emission_counterexample :
    (Printer.image (.img testMask) "d24".toList).1
      ≠ claimedImageSeq testMask "d24".toList := by decide

/-- C7 (amended): for every image and density, `image` raises no error and
emits set-line-spacing-zero, then for each bitmap line the density header,
the image dot width (the line byte count divided by the bytes per column) as
a little-endian 16-bit value, the line bytes and a line terminator, and
after all lines the restore-default-line-spacing command. -/
theorem image_emission (im : PrintImage) (density : List Char) :
    Printer.image (.img im) density
      = (Printer.lineSpace (some 0)
          ++ (toBitmap im
              ((if upperCase density = "D8".toList
                  ∨ upperCase density = "S8".toList then 1 else 3) * 8)).flatMap
            (fun line => [Chunk.cmd ("BITMAP_" ++ String.mk (upperCase density)),
              Chunk.u16le im.width, Chunk.bytes line, Chunk.cmd "EOL"])
          ++ Printer.lineSpace none, none) := by
  set n := (if upperCase density = "D8".toList
      ∨ upperCase density = "S8".toList then 1 else 3) with hn
  have hnpos : 0 < n := by rw [hn]; split <;> omega
  have hline : ∀ line ∈ toBitmap im (n * 8), line.length = im.width * n := by
    intro line hl
    rw [toBitmap] at hl
    obtain ⟨y, hy, rfl⟩ := List.mem_map.1 hl
    rw [bitmapLine, blocks_length]
    congr 1
    omega
  have hmap : (toBitmap im (n * 8)).flatMap
        (fun line => [Chunk.cmd ("BITMAP_" ++ String.mk (upperCase density)),
          Chunk.u16le (line.length / n), Chunk.bytes line, Chunk.cmd "EOL"])
      = (toBitmap im (n * 8)).flatMap
        (fun line => [Chunk.cmd ("BITMAP_" ++ String.mk (upperCase density)),
          Chunk.u16le im.width, Chunk.bytes line, Chunk.cmd "EOL"]) := by
    apply flatMap_congr
    intro line hl
    rw [hline line hl, Nat.mul_div_cancel _ hnpos]
  simp only [Printer.image, foldl_append_chunks, ← hn, hmap]

/-- C3: on a non-empty decimal digit string, `getParityBit` returns the
single decimal digit `(10 - (S mod 10)) mod 10`, where `S` sums the reversed
digit string with weight 3 at odd 1-indexed reversed positions and weight 1
at even ones. -/
theorem getParityBit_correct (s : List Char)
    (_hne : s ≠ []) (_hdig : ∀ c ∈ s, c.isDigit) :
    getParityBit s = [Char.ofNat (48 + (10 - specWeightedSum s % 10) % 10)]
      ∧ (10 - specWeightedSum s % 10) % 10 ≤ 9 := by
  refine ⟨getParityBit_eq_spec s, ?_⟩
  omega

/-- Witness for `getParityBit_correct` on a known 12-digit payload. -/
theorem getParityBit_correct_witness :
    getParityBit "036000291452".toList
        = [Char.ofNat (48 + (10 - specWeightedSum "036000291452".toList % 10) % 10)]
      ∧ (10 - specWeightedSum "036000291452".toList % 10) % 10 ≤ 9 :=
  getParityBit_correct "036000291452".toList (by decide) (by decide)

/-- The upper-bound test of `utils.textSubstring`: `!end || accLen <= end`.
A missing `end` (the two-argument call) and `end === 0` are both falsy, so
either disables the bound. -/
def jsEndOk (endQ : Option ℚ) (accLen : Nat) : Bool :=
  match endQ with
  | none => true
  | some e => if e = 0 then true else decide ((accLen : ℚ) ≤ e)

/-- `utils.textSubstring`: reduce over the characters keeping those whose
accumulated display length lands strictly past `start` and within the bound.
The bounds are rationals because `tableCustom` passes fractional cell
widths. -/
def textSubstring (s : List Char) (start : ℚ) (endQ : Option ℚ) : List Char :=
  (s.foldl
    (fun (p : Nat × List Char) ch =>
      let accLen := p.1 + charLength ch
      (accLen,
        p.2 ++ (if start < (accLen : ℚ) ∧ jsEndOk endQ accLen then [ch] else [])))
    (0, [])).2

/-- Count of iterations of `for (let s = 0; s < spaces; s++)` for a
(possibly negative or fractional) `spaces`: zero when `spaces ≤ 0`,
otherwise the ceiling, computed from the reduced numerator and denominator
so the kernel can evaluate it. -/
def spaceCount (q : ℚ) : Nat :=
  if q ≤ 0 then 0 else (q.num.toNat + q.den - 1) / q.den

/-- A table cell as `tableCustom` reads it: text, optional alignment,
optional style mnemonic, optional fractional width override (`"width" in
obj` is a presence test) and optional explicit column count (`obj.cols` is
a truthiness test, so zero does not trigger the branch). -/
structure Cell where
  text : List Char
  align : Option (List Char) := none
  style : Option (List Char) := none
  width : Option ℚ := none
  cols : Option Nat := none
deriving DecidableEq

/-- The session values `tableCustom` consumes: the device dot width
(`this.width`) and the size multipliers from `options.size`. -/
structure TableCtx where
  deviceWidth : Nat
  w : Nat
  h : Nat

/-- The mutable locals of one `tableCustom` pass: `cellWidth` and
`leftoverSpace` persist across the cell loop, `line` is the accumulated
`lineStr`, `second` the `secondLine` array (holding the very cell objects,
mutated), `enabled` the `secondLineEnabled` flag. -/
structure RowState where
  cellWidth : ℚ
  leftover : ℚ
  line : List Tok
  second : List Cell
  enabled : Bool

/-- Resolution of the effective cell width and leftover space for one cell:
a fractional override multiplies `baseWidth`; otherwise a non-zero explicit
column count divides by the width multiplier and zeroes the leftover;
otherwise both persist from the previous cell. -/
def cellWidthLeft (ctx : TableCtx) (baseWidth : Nat) (st : RowState)
    (obj : Cell) : ℚ × ℚ :=
  match obj.width, obj.cols with
  | some wfrac, _ => ((baseWidth : ℚ) * wfrac, st.leftover)
  | none, some n =>
      if n ≠ 0 then ((n : ℚ) / (ctx.w : ℚ), 0) else (st.cellWidth, st.leftover)
  | none, none => (st.cellWidth, st.leftover)

/-- The rendered cell text: nothing when the (possibly truncated) text is
empty, otherwise the characters wrapped in a style-on / style-off escape
pair when a style mnemonic is set (an empty mnemonic is falsy). -/
def styledText (style : Option (List Char)) (text : List Char) : List Tok :=
  if text = [] then []
  else match style with
    | some st =>
        if st = [] then text.map Tok.ch
        else Tok.esc ("STYLE_" ++ String.mk (upperCase st)) :: text.map Tok.ch
          ++ [Tok.esc "STYLE_NORMAL"]
    | none => text.map Tok.ch

/-- One iteration of the cell loop of `tableCustom`: resolve the effective
width, truncate an overflowing text, render padding and text per alignment
(center ignores the leftover; right and left absorb it once), then push the
cell with its text overwritten — the overflow remainder, or the empty
string. -/
def cellStep (ctx : TableCtx) (baseWidth : Nat) (st : RowState) (obj : Cell) :
    RowState :=
  let align := upperCase (jsOrStr obj.align "left".toList)
  let tlen := textLength obj.text
  let cwlo := cellWidthLeft ctx baseWidth st obj
  let cw := cwlo.1
  let lo := cwlo.2
  let textNow :=
    if cw < (tlen : ℚ) then textSubstring obj.text 0 (some cw) else obj.text
  let body := styledText obj.style textNow
  let rendered :=
    if align = "CENTER".toList then
      let spaces := (cw - (tlen : ℚ)) / 2
      (List.replicate (spaceCount spaces) (Tok.ch ' ') ++ body
        ++ List.replicate (spaceCount (spaces - 1)) (Tok.ch ' '), lo)
    else if align = "RIGHT".toList then
      let sp := if 0 < lo then (cw - (tlen : ℚ) + lo, (0 : ℚ)) else (cw - (tlen : ℚ), lo)
      (List.replicate (spaceCount sp.1) (Tok.ch ' ') ++ body, sp.2)
    else
      let fl : ℚ := (⌊cw - (tlen : ℚ)⌋ : ℚ)
      let sp := if 0 < lo then (fl + lo, (0 : ℚ)) else (fl, lo)
      (body ++ List.replicate (spaceCount sp.1) (Tok.ch ' '), sp.2)
  let newText :=
    if cw < (tlen : ℚ) then textSubstring obj.text cw none else []
  let enabled := if cw < (tlen : ℚ) then true else st.enabled
  { cellWidth := cw, leftover := rendered.2, line := st.line ++ rendered.1,
    second := st.second ++ [{ obj with text := newText }], enabled := enabled }

/-- One pass of `tableCustom`: lay out all cells, wrap the line in the
custom-size escapes when a multiplier exceeds one, terminate it, and return
(line tokens, the continuation row, the overflow flag). -/
def tableOnce (ctx : TableCtx) (data : List Cell) : List Tok × List Cell × Bool :=
  let baseWidth := ctx.deviceWidth / ctx.w
  let cw0 := baseWidth / data.length
  let st0 : RowState :=
    { cellWidth := (cw0 : ℚ),
      leftover := (baseWidth : ℚ) - (cw0 : ℚ) * (data.length : ℚ),
      line := [], second := [], enabled := false }
  let st := data.foldl (cellStep ctx baseWidth) st0
  let toks := if 1 < ctx.w ∨ 1 < ctx.h
    then Tok.size ctx.w ctx.h :: st.line ++ [Tok.esc "TXT_NORMAL"]
    else st.line
  (toks ++ [Tok.esc "EOL"], st.second, st.enabled)

namespace Printer

/-- `Printer.tableCustom`, fuelled: each pass writes one encoded line and
recurses on the continuation row while some cell overflowed.  Returns the
written chunks, the final state of the caller's cell objects (the source
pushes the same objects into `secondLine`, so they are threaded through),
and whether the recursion completed within the fuel. -/
def tableCustom (ctx : TableCtx) : Nat → List Cell → List Chunk × List Cell × Bool
  | 0, data => ([], data, false)
  | fuel + 1, data =>
    let r := tableOnce ctx data
    if r.2.2 then
      let rest := tableCustom ctx fuel r.2.1
      (Chunk.line r.1 :: rest.1, rest.2.1, rest.2.2)
    else
      ([Chunk.line r.1], r.2.1, true)

end Printer

/-- The overflow depth: how many synthetic continuation rows are generated
until no cell overflows; `none` when the fuel runs out first. -/
def tableDepth (ctx : TableCtx) : Nat → List Cell → Option Nat
  | 0, _ => none
  | fuel + 1, data =>
    let r := tableOnce ctx data
    if r.2.2 then (tableDepth ctx fuel r.2.1).map (· + 1) else some 0

lemma cellStep_second_length (ctx : TableCtx) (b : Nat) (st : RowState)
    (obj : Cell) :
    (cellStep ctx b st obj).second.length = st.second.length + 1 := by
  simp [cellStep]

lemma cellStep_enabled_mono (ctx : TableCtx) (b : Nat) (st : RowState)
    (obj : Cell) (h : st.enabled = true) :
    (cellStep ctx b st obj).enabled = true := by
  simp only [cellStep]
  split_ifs <;> simp [h]

lemma foldl_second_length (ctx : TableCtx) (b : Nat) (data : List Cell)
    (st : RowState) :
    (data.foldl (cellStep ctx b) st).second.length
      = st.second.length + data.length := by
  induction data generalizing st with
  | nil => simp
  | cons a t ih =>
      rw [List.foldl_cons, ih, cellStep_second_length]
      simp only [List.length_cons]
      omega

lemma foldl_enabled_mono (ctx : TableCtx) (b : Nat) (data : List Cell)
    (st : RowState) (h : st.enabled = true) :
    (data.foldl (cellStep ctx b) st).enabled = true := by
  induction data generalizing st with
  | nil => exact h
  | cons a t ih =>
      rw [List.foldl_cons]
      exact ih _ (cellStep_enabled_mono _ _ _ _ h)

lemma cellStep_not_enabled (ctx : TableCtx) (b : Nat) (st : RowState)
    (obj : Cell) (h : (cellStep ctx b st obj).enabled = false) :
    (cellStep ctx b st obj).second = st.second ++ [{ obj with text := [] }] := by
  by_cases hc : (cellWidthLeft ctx b st obj).1 < (textLength obj.text : ℚ)
  · exfalso
    simp [cellStep, hc] at h
  · simp [cellStep, hc]

lemma foldl_no_overflow_blank (ctx : TableCtx) (b : Nat) (data : List Cell)
    (st : RowState) (hall : ∀ c ∈ st.second, c.text = [])
    (hres : (data.foldl (cellStep ctx b) st).enabled = false) :
    ∀ c ∈ (data.foldl (cellStep ctx b) st).second, c.text = [] := by
  induction data generalizing st with
  | nil => exact hall
  | cons a t ih =>
      rw [List.foldl_cons] at hres ⊢
      by_cases hstep : (cellStep ctx b st a).enabled = true
      · rw [foldl_enabled_mono ctx b t _ hstep] at hres
        cases hres
      · apply ih
        · rw [cellStep_not_enabled ctx b st a
            (Bool.not_eq_true _ ▸ hstep : (cellStep ctx b st a).enabled = false)]
          intro c hc
          rcases List.mem_append.1 hc with hmem | hmem
          · exact hall c hmem
          · rw [List.mem_singleton.1 hmem]
        · exact hres

lemma tableOnce_second_length (ctx : TableCtx) (data : List Cell) :
    (tableOnce ctx data).2.1.length = data.length := by
  simp [tableOnce, foldl_second_length]

lemma tableOnce_no_overflow_blank (ctx : TableCtx) (data : List Cell)
    (h : (tableOnce ctx data).2.2 = false) :
    ∀ c ∈ (tableOnce ctx data).2.1, c.text = [] := by
  simp only [tableOnce] at h ⊢
  exact foldl_no_overflow_blank _ _ _ _ (by simp) h

/-- C8: when the layout recursion terminates with overflow depth `k`,
exactly `k + 1` terminated lines are appended; when every cell fits at the
first pass (no overflow), the depth is zero, hence exactly one line. -/
theorem tableCustom_line_count (ctx : TableCtx) (fuel : Nat) (data : List Cell)
    (k : Nat) (_hw : 1 ≤ ctx.w) (hne : data ≠ [])
    (hk : tableDepth ctx fuel data = some k) :
    (Printer.tableCustom ctx fuel data).1.length = k + 1
      ∧ ((tableOnce ctx data).2.2 = false → k = 0) := by
  induction fuel generalizing data k with
  | zero => simp [tableDepth] at hk
  | succ fuel ih =>
      by_cases hovf : (tableOnce ctx data).2.2
      · simp only [tableDepth, if_pos hovf] at hk
        obtain ⟨k2, hk2, rfl⟩ := Option.map_eq_some.1 hk
        have hlen := tableOnce_second_length ctx data
        have hne2 : (tableOnce ctx data).2.1 ≠ [] := by
          intro hnil
          rw [hnil] at hlen
          exact hne (List.eq_nil_of_length_eq_zero hlen.symm)
        refine ⟨?_, fun hcontr => absurd hovf (by simp [hcontr])⟩
        simp only [Printer.tableCustom, if_pos hovf, List.length_cons]
        rw [(ih (tableOnce ctx data).2.1 k2 hne2 hk2).1]
      · simp only [tableDepth, if_neg hovf] at hk
        obtain rfl : 0 = k := Option.some.inj hk
        simp [Printer.tableCustom, if_neg hovf]

/-- Witness for `tableCustom_line_count`: a two-cell row in an 8-column
device where the first cell overflows once (depth 1, two lines). -/
theorem tableCustom_line_count_witness :
    (Printer.tableCustom ⟨8, 1, 1⟩ 4
        [{ text := "abcdef".toList }, { text := "x".toList }]).1.length = 1 + 1
      ∧ ((tableOnce ⟨8, 1, 1⟩
          [{ text := "abcdef".toList }, { text := "x".toList }]).2.2 = false
            → 1 = 0) :=
  tableCustom_line_count ⟨8, 1, 1⟩ 4
    [{ text := "abcdef".toList }, { text := "x".toList }] 1
    (by decide) (by decide) (by decide)

/-- C10: `tableCustom` threads the caller's cell objects through the
continuation rows and overwrites their `text` field; once the recursion
terminates, every cell of the caller's row holds the empty string. -/
theorem tableCustom_blanks_cells (ctx : TableCtx) (fuel : Nat) (data : List Cell)
    (_hw : 1 ≤ ctx.w)
    (hdone : (Printer.tableCustom ctx fuel data).2.2 = true) :
    ((Printer.tableCustom ctx fuel data).2.1).all (fun c => c.text.isEmpty)
      = true := by
  induction fuel generalizing data with
  | zero => simp [Printer.tableCustom] at hdone
  | succ fuel ih =>
      by_cases hovf : (tableOnce ctx data).2.2
      · simp only [Printer.tableCustom, if_pos hovf] at hdone ⊢
        exact ih _ hdone
      · simp only [Printer.tableCustom, if_neg hovf] at hdone ⊢
        rw [List.all_eq_true]
        intro c hc
        have hblank := tableOnce_no_overflow_blank ctx data (by simpa using hovf) c hc
        simp [hblank]

/-- Witness for `tableCustom_blanks_cells` on the same overflowing row. -/
theorem tableCustom_blanks_cells_witness :
    ((Printer.tableCustom ⟨8, 1, 1⟩ 4
        [{ text := "abcdef".toList }, { text := "x".toList }]).2.1).all
        (fun c => c.text.isEmpty) = true :=
  tableCustom_blanks_cells ⟨8, 1, 1⟩ 4
    [{ text := "abcdef".toList }, { text := "x".toList }]
    (by decide) (by decide)
